import Mathlib

set_option maxHeartbeats 1000000

/-!
Verification of the toy imperative-language interpreter (parser and
tree-walking evaluator) of `src/main.rs`.

Source lines are modelled as lists of characters.  Each anchored regex of
the Rust parser is embedded as a deterministic matcher over `List Char`;
since every capture group of those regexes (`\w+`, `\d+`, `[^)]*`,
the operator alternation) is delimited by characters that cannot belong to
the group, greedy maximal munch coincides with the regex semantics, and the
matchers below realise exactly that.

Machine integers: values carry Rust type `i64`.  The development represents
them as mathematical integers `Int`; where the width of the machine type
changes observable behaviour — the `+=` of the `VarUpdate` arm, whose
result leaves the `i64` range when the sum overflows (wrapping in a release
build, panicking in a debug build) — the machine-width behaviour is
modelled separately by `wrap64` and `evalUpdate64` and the property is
settled against that model.  The `i64` range check of
`str::parse::<i64>().unwrap()` on regex-captured literals is deliberately
not folded into the matchers (`matchInt`, `parseIntToken`): a literal that
overflows panics in the source after the regex has already matched, so a
range check inside the matchers would wrongly turn those panics into
silently skipped lines; no property below concerns an overflowing literal,
and the matchers are exact for all in-range literals.
-/

namespace SCInterp

/-- Word characters, the class `\w` of the parser regexes (ASCII letters,
digits and underscore). -/
def isWordChar (c : Char) : Bool := c.isAlphanum || c == '_'

/-- `str::trim` of a source line: whitespace stripped from both ends. -/
def trim (l : List Char) : List Char :=
  ((l.dropWhile Char.isWhitespace).reverse.dropWhile Char.isWhitespace).reverse

/-- Greedy maximal munch: split off the longest run of characters
satisfying `p` (the repetition operator of the regex character classes). -/
def spanP (p : Char → Bool) : List Char → List Char × List Char
  | [] => ([], [])
  | c :: r =>
    if p c then
      let q := spanP p r
      (c :: q.1, q.2)
    else ([], c :: r)

/-- Consume an exact literal (the fixed text fragments of the regexes),
returning the remaining input. -/
def expectLit : List Char → List Char → Option (List Char)
  | [], l => some l
  | _ :: _, [] => none
  | c :: cs, d :: ds => if c == d then expectLit cs ds else none

/-- Greedy `\w+`: a nonempty maximal run of word characters. -/
def matchWord (l : List Char) : Option (List Char × List Char) :=
  let p := spanP isWordChar l
  if p.1.isEmpty then none else some p

/-- Decimal value of a digit run. -/
def digitsToNat (ds : List Char) : Nat :=
  ds.foldl (fun a c => a * 10 + (c.toNat - 48)) 0

/-- Greedy `-?\d+`: optional minus sign then a nonempty maximal digit run. -/
def matchInt : List Char → Option (Int × List Char)
  | '-' :: rest =>
    let p := spanP Char.isDigit rest
    if p.1.isEmpty then none else some (-(Int.ofNat (digitsToNat p.1)), p.2)
  | l =>
    let p := spanP Char.isDigit l
    if p.1.isEmpty then none else some (Int.ofNat (digitsToNat p.1), p.2)

/-- Literal fragment `let ` of `re_assign`. -/
def litLet : List Char := "let ".data

/-- Literal fragment ` = `. -/
def litEq : List Char := " = ".data

/-- Literal fragment `;`. -/
def litSemi : List Char := ";".data

/-- Literal fragment ` + ` of `re_update`. -/
def litPlus : List Char := " + ".data

/-- Literal fragment `if ` of `re_if`. -/
def litIf : List Char := "if ".data

/-- Literal fragment ` == ` of `re_if`. -/
def litEqEq : List Char := " == ".data

/-- Literal fragment ` {` closing the `if`/`while` header lines. -/
def litOpenBrace : List Char := " \x7b".data

/-- The exact line `} else {` recognised by `re_else`. -/
def elseLine : List Char := "\x7d else \x7b".data

/-- The exact line `}` recognised by `re_endif` / `re_endwhile`. -/
def endLine : List Char := "\x7d".data

/-- Literal fragment `while ` of `re_while`. -/
def litWhile : List Char := "while ".data

/-- A single space literal. -/
def litSpace : List Char := " ".data

/-- Literal fragment `(` of `re_function_call`. -/
def litOpenParen : List Char := "(".data

/-- Literal fragment `);` of `re_function_call`. -/
def litCloseCall : List Char := ");".data

/-- The comparison operator `==`. -/
def opEq : List Char := "==".data

/-- The comparison operator `!=`. -/
def opNe : List Char := "!=".data

/-- The comparison operator `<`. -/
def opLt : List Char := "<".data

/-- The comparison operator `>`. -/
def opGt : List Char := ">".data

/-- The comparison operator `<=`. -/
def opLe : List Char := "<=".data

/-- The comparison operator `>=`. -/
def opGe : List Char := ">=".data

/-- The name of the only built-in function, `print`. -/
def printName : List Char := "print".data

/-- `re_assign`: `^let (\w+) = (-?\d+);$`, capturing variable and value. -/
def matchAssign (l : List Char) : Option (List Char × Int) := do
  let r1 ← expectLit litLet l
  let (w, r2) ← matchWord r1
  let r3 ← expectLit litEq r2
  let (n, r4) ← matchInt r3
  let r5 ← expectLit litSemi r4
  if r5.isEmpty then some (w, n) else none

/-- `re_update`: `^(\w+) = (\w+) \+ (-?\d+);$`.  As in the source, only the
first identifier (capture 1) and the integer (capture 3) are retained. -/
def matchUpdate (l : List Char) : Option (List Char × Int) := do
  let (w, r1) ← matchWord l
  let r2 ← expectLit litEq r1
  let (_, r3) ← matchWord r2
  let r4 ← expectLit litPlus r3
  let (n, r5) ← matchInt r4
  let r6 ← expectLit litSemi r5
  if r6.isEmpty then some (w, n) else none

/-- `re_if`: `^if (\w+) == (-?\d+) \{$`. -/
def matchIf (l : List Char) : Option (List Char × Int) := do
  let r1 ← expectLit litIf l
  let (w, r2) ← matchWord r1
  let r3 ← expectLit litEqEq r2
  let (n, r4) ← matchInt r3
  let r5 ← expectLit litOpenBrace r4
  if r5.isEmpty then some (w, n) else none

/-- `re_else`: the line is exactly `} else {`. -/
def matchElse (l : List Char) : Bool := l == elseLine

/-- `re_endif` / `re_endwhile`: the line is exactly `}`. -/
def matchEnd (l : List Char) : Bool := l == endLine

/-- The operator alternation `(==|!=|<|>|<=|>=)` of `re_while`.  The regex
engine prefers `<` over `<=` in alternation order, but `<` must then be
followed by a space, so on the text `<=` the two-character operator is the
one that makes the whole pattern match; trying two-character operators
first realises exactly that behaviour. -/
def matchOp : List Char → Option (List Char × List Char)
  | '=' :: '=' :: r => some (opEq, r)
  | '!' :: '=' :: r => some (opNe, r)
  | '<' :: '=' :: r => some (opLe, r)
  | '>' :: '=' :: r => some (opGe, r)
  | '<' :: r => some (opLt, r)
  | '>' :: r => some (opGt, r)
  | _ => none

/-- `re_while`: `^while (\w+) (==|!=|<|>|<=|>=) (-?\d+) \{$`. -/
def matchWhile (l : List Char) : Option (List Char × List Char × Int) := do
  let r1 ← expectLit litWhile l
  let (w, r2) ← matchWord r1
  let r3 ← expectLit litSpace r2
  let (op, r4) ← matchOp r3
  let r5 ← expectLit litSpace r4
  let (n, r6) ← matchInt r5
  let r7 ← expectLit litOpenBrace r6
  if r7.isEmpty then some (w, op, n) else none

/-- `re_function_call`: `^(\w+)\(([^)]*)\);$`, capturing the name and the
raw argument text (everything before the first closing parenthesis). -/
def matchCall (l : List Char) : Option (List Char × List Char) := do
  let (w, r1) ← matchWord l
  let r2 ← expectLit litOpenParen r1
  let p := spanP (fun c => c != ')') r2
  let r3 ← expectLit litCloseCall p.2
  if r3.isEmpty then some (w, p.1) else none

/-- Split the raw argument text on commas, exactly like Rust
`str::split(',')`: splitting the empty string yields one empty piece. -/
def splitComma : List Char → List (List Char)
  | [] => [[]]
  | c :: r =>
    if c == ',' then [] :: splitComma r
    else
      match splitComma r with
      | t :: ts => (c :: t) :: ts
      | [] => [[c]]

/-- A nonempty all-digit run, as required by `str::parse::<i64>` after an
optional sign. -/
def parseDigits (ds : List Char) : Option Nat :=
  if ds.isEmpty then none
  else if ds.all Char.isDigit then some (digitsToNat ds) else none

/-- `str::parse::<i64>` on a trimmed token: optional `+` or `-` sign, then
one or more digits and nothing else. -/
def parseIntToken : List Char → Option Int
  | '+' :: ds => (parseDigits ds).map (fun n => (Int.ofNat n))
  | '-' :: ds => (parseDigits ds).map (fun n => -(Int.ofNat n))
  | ds => (parseDigits ds).map (fun n => (Int.ofNat n))

/-- The argument-list conversion of the source: split capture 2 on `,`,
trim each token and parse it as an integer; any failing token is a panic
(`unwrap`), modelled as `none`. -/
def parseArgs (l : List Char) : Option (List Int) :=
  (splitComma l).mapM (fun t => parseIntToken (trim t))

/-- The `Statement` enum of the source. -/
inductive Stmt where
  | varAssign (var : List Char) (value : Int)
  | varUpdate (var : List Char) (value : Int)
  | ifCondition (var : List Char) (value : Int)
      (trueBranch : List Stmt) (falseBranch : List Stmt)
  | whileLoop (var : List Char) (op : List Char) (value : Int)
      (body : List Stmt)
  | functionCall (name : List Char) (args : List Int)

/-- `Interpreter::parse_statement`: nested statements accept only the
assign, update and call forms; anything else panics (`none`). -/
def parse_statement (l : List Char) : Option Stmt :=
  match matchAssign l with
  | some (v, n) => some (.varAssign v n)
  | none =>
  match matchUpdate l with
  | some (v, n) => some (.varUpdate v n)
  | none =>
  match matchCall l with
  | some (name, argsTxt) => (parseArgs argsTxt).map (fun args => .functionCall name args)
  | none => none

/-- The control state of `Interpreter::parse`: either at the top level, or
inside one of the three inner line-consuming loops (true branch of an `if`,
false branch after `} else {`, body of a `while`), carrying the statements
collected so far in reverse. -/
inductive PMode where
  | top : PMode
  | inIf (var : List Char) (value : Int) (acc : List Stmt) : PMode
  | inElse (var : List Char) (value : Int) (tb : List Stmt) (acc : List Stmt) : PMode
  | inWhile (var : List Char) (op : List Char) (value : Int) (acc : List Stmt) : PMode

/-- `Interpreter::parse`, one source line per step.  The Rust code walks an
index `i` over the lines with three inner loops for block bodies; here the
position in that control flow is the explicit `PMode`.  Top-level lines are
tried against the five statement regexes in source order and silently
skipped when none matches; block bodies collect `parse_statement` results
until their closing delimiter, which the outer `i += 1` then consumes.
Reaching the end of input inside a block emits the block statement with
what was collected (the source loops simply stop at `i >= lines.len()`).
`none` is a panic of the original program. -/
def parseRun : PMode → List (List Char) → Option (List Stmt)
  | .top, [] => some []
  | .inIf v n acc, [] => some [.ifCondition v n acc.reverse []]
  | .inElse v n tb acc, [] => some [.ifCondition v n tb acc.reverse]
  | .inWhile v op n acc, [] => some [.whileLoop v op n acc.reverse]
  | .top, l :: rest =>
    let t := trim l
    match matchAssign t with
    | some (v, n) => (parseRun .top rest).map (fun ss => .varAssign v n :: ss)
    | none =>
    match matchUpdate t with
    | some (v, n) => (parseRun .top rest).map (fun ss => .varUpdate v n :: ss)
    | none =>
    match matchIf t with
    | some (v, n) => parseRun (.inIf v n []) rest
    | none =>
    match matchWhile t with
    | some (v, op, n) => parseRun (.inWhile v op n []) rest
    | none =>
    match matchCall t with
    | some (name, argsTxt) =>
      match parseArgs argsTxt with
      | some args => (parseRun .top rest).map (fun ss => .functionCall name args :: ss)
      | none => none
    | none => parseRun .top rest
  | .inIf v n acc, l :: rest =>
    let t := trim l
    if matchElse t then parseRun (.inElse v n acc.reverse []) rest
    else if matchEnd t then
      (parseRun .top rest).map (fun ss => .ifCondition v n acc.reverse [] :: ss)
    else
      match parse_statement t with
      | some s => parseRun (.inIf v n (s :: acc)) rest
      | none => none
  | .inElse v n tb acc, l :: rest =>
    let t := trim l
    if matchEnd t then
      (parseRun .top rest).map (fun ss => .ifCondition v n tb acc.reverse :: ss)
    else
      match parse_statement t with
      | some s => parseRun (.inElse v n tb (s :: acc)) rest
      | none => none
  | .inWhile v op n acc, l :: rest =>
    let t := trim l
    if matchEnd t then
      (parseRun .top rest).map (fun ss => .whileLoop v op n acc.reverse :: ss)
    else
      match parse_statement t with
      | some s => parseRun (.inWhile v op n (s :: acc)) rest
      | none => none

/-- `Interpreter::parse` on a list of source lines. -/
def parseTop (lines : List (List Char)) : Option (List Stmt) :=
  parseRun .top lines

/-- The variable environment: the `variables: HashMap<String, i64>` of the
interpreter, as a finite partial map from names to integers. -/
def Env : Type := List Char → Option Int

/-- The empty environment a fresh `Interpreter` starts with. -/
def envEmpty : Env := fun _ => none

/-- `HashMap::insert` (create-or-overwrite one key). -/
def envInsert (v : List Char) (n : Int) (env : Env) : Env :=
  fun y => if y = v then some n else env y

/-- Decimal rendering of an integer, as Rust `{}` formatting prints it. -/
def intChars (n : Int) : List Char := n.repr.data

/-- The output of the `print` built-in: each argument followed by one
space (`print!("{} ", arg)`), then one newline (`println!()`). -/
def printOut (args : List Int) : List Char :=
  (args.flatMap (fun a => intChars a ++ [' '])) ++ ['\n']

/-- `Interpreter::evaluate_condition`: look the variable up; a missing
variable makes the condition false, otherwise dispatch on the operator
string, any unknown operator yielding false. -/
def evalCond (env : Env) (v : List Char) (op : List Char) (n : Int) : Bool :=
  match env v with
  | none => false
  | some w =>
    if op = opEq then w == n
    else if op = opNe then w != n
    else if op = opLt then decide (w < n)
    else if op = opGt then decide (n < w)
    else if op = opLe then decide (w ≤ n)
    else if op = opGe then decide (n ≤ w)
    else false

/-- `Interpreter::evaluate`: execute a statement sequence in order against
the environment, concatenating the printed output.  The list argument is
the sequence still to run; the arms are the arms of the source `match`,
and the `while` arm re-enters with the same `WhileLoop` at the head,
exactly the source's `while evaluate_condition { evaluate(body) }` loop.
The source has no iteration cap and can diverge, so evaluation carries
`fuel`, one unit consumed per executed statement and per loop re-entry;
exhaustion yields `none`.  A panic of the source (an unknown built-in
function name) is `none` as well. -/
def evalSt : Nat → List Stmt → Env → Option (Env × List Char)
  | _, [], env => some (env, [])
  | 0, _ :: _, _ => none
  | f + 1, s :: rest, env =>
    match s with
    | .varAssign v n => evalSt f rest (envInsert v n env)
    | .varUpdate v d =>
      match env v with
      | some w => evalSt f rest (envInsert v (w + d) env)
      | none => evalSt f rest env
    | .ifCondition v n tb fb =>
      match env v with
      | none => evalSt f rest env
      | some w =>
        match evalSt f (if w = n then tb else fb) env with
        | none => none
        | some (env1, o1) =>
          match evalSt f rest env1 with
          | none => none
          | some (env2, o2) => some (env2, o1 ++ o2)
    | .whileLoop v op n body =>
      if evalCond env v op n then
        match evalSt f body env with
        | none => none
        | some (env1, o1) =>
          match evalSt f (.whileLoop v op n body :: rest) env1 with
          | none => none
          | some (env2, o2) => some (env2, o1 ++ o2)
      else evalSt f rest env
    | .functionCall name args =>
      if name = printName then
        match evalSt f rest env with
        | none => none
        | some (env1, o1) => some (env1, printOut args ++ o1)
      else none

/-- The `while self.evaluate_condition(..) { self.evaluate(body.clone()) }`
loop of the `WhileLoop` arm in isolation, indexed by the number of
iterations still allowed instead of by evaluation steps: re-check the
condition before every iteration, run the body (with `bodyFuel` evaluation
steps) when it holds, stop when it fails; `none` when the condition still
holds after the allowed iterations (or the body itself fails).  The least
sufficient index is therefore the exact number of iterations the source
loop performs. -/
def runWhile (v op : List Char) (n : Int) (body : List Stmt) (bodyFuel : Nat) :
    Nat → Env → Option (Env × List Char)
  | 0, env => if evalCond env v op n then none else some (env, [])
  | k + 1, env =>
    if evalCond env v op n then
      match evalSt bodyFuel body env with
      | none => none
      | some (env1, o1) =>
        match runWhile v op n body bodyFuel k env1 with
        | none => none
        | some (env2, o2) => some (env2, o1 ++ o2)
    else some (env, [])

/-- `main`, restricted to one embedded script: parse the lines, evaluate
the statements in a fresh environment, and observe the printed output. -/
def runOutput (fuel : Nat) (lines : List (List Char)) : Option (List Char) :=
  (parseTop lines).bind (fun ss => (evalSt fuel ss envEmpty).map (fun p => p.2))

/-- The least `i64` value, `i64::MIN`. -/
def i64Min : Int := -(2 ^ 63)

/-- The greatest `i64` value, `i64::MAX`. -/
def i64Max : Int := 2 ^ 63 - 1

/-- Modular (wraparound) reduction of an integer into the `i64` range:
the value produced by Rust `i64` addition in a release build when the
mathematical sum leaves the range (a debug build panics there instead;
either way the machine result is not the mathematical sum). -/
def wrap64 (n : Int) : Int := (n + 2 ^ 63) % 2 ^ 64 - 2 ^ 63

/-- The `VarUpdate` arm of `Interpreter::evaluate` with its
`*var_value += value` taken at machine width: when the variable exists its
value becomes the `i64` reduction of the sum, when it does not exist the
environment is unchanged.  This refines the unbounded-integer arm of
`evalSt`, with which it agrees whenever the sum stays in the `i64` range. -/
def evalUpdate64 (x : List Char) (d : Int) (env : Env) : Env :=
  match env x with
  | some w => envInsert x (wrap64 (w + d)) env
  | none => env

/-- The lines of end-to-end scenario A of the specification. -/
def scenarioA : List (List Char) :=
  [("let x = 10;".data), ("let y = 20;".data), ("x = x + 5;".data),
   ("if x == 15 \x7b".data), ("print(1,2,3);".data), ("\x7d else \x7b".data),
   ("print(4,5,6);".data), ("\x7d".data)]

/-- C1: parsing and then evaluating the eight-line scenario-A program from
an empty environment produces exactly the characters `1 2 3 ` followed by
one newline, and nothing else. -/
theorem claim_C1 : runOutput 8 scenarioA = some ("1 2 3 \n".data) := by decide

/-- C3: evaluating `IfCondition{var: x, value: V, true_branch: A,
false_branch: B}`: when `x` is bound to `V` the result is exactly the
result of running `A`; when `x` is bound to any other value it is exactly
the result of running `B`; when `x` is unbound the statement is a no-op
(environment unchanged, no output). -/
theorem claim_C3 (f : Nat) (x : List Char) (V : Int) (A B : List Stmt) (env : Env) :
    (env x = some V →
      evalSt (f + 1) [Stmt.ifCondition x V A B] env = evalSt f A env) ∧
    (∀ w, env x = some w → w ≠ V →
      evalSt (f + 1) [Stmt.ifCondition x V A B] env = evalSt f B env) ∧
    (env x = none →
      evalSt (f + 1) [Stmt.ifCondition x V A B] env = some (env, [])) := by
  refine ⟨fun h => ?_, fun w h hw => ?_, fun h => ?_⟩
  · cases hA : evalSt f A env with
    | none => simp [evalSt, h, hA]
    | some p => simp [evalSt, h, hA]
  · cases hB : evalSt f B env with
    | none => simp [evalSt, h, hw, hB]
    | some p => simp [evalSt, h, hw, hB]
  · simp [evalSt, h]

theorem claim_C3_witness :
    ((envInsert ("x".data) 1 envEmpty) ("x".data) = some 1 ∧
      evalSt 2 [Stmt.ifCondition ("x".data) 1 [Stmt.varAssign ("y".data) 2] []]
          (envInsert ("x".data) 1 envEmpty) =
        evalSt 1 [Stmt.varAssign ("y".data) 2] (envInsert ("x".data) 1 envEmpty)) ∧
    (envEmpty ("z".data) = none ∧
      evalSt 2 [Stmt.ifCondition ("z".data) 1 [Stmt.varAssign ("y".data) 2] []]
          envEmpty = some (envEmpty, [])) :=
  ⟨⟨rfl, (claim_C3 1 ("x".data) 1 [Stmt.varAssign ("y".data) 2] []
      (envInsert ("x".data) 1 envEmpty)).1 rfl⟩,
   ⟨rfl, (claim_C3 1 ("z".data) 1 [Stmt.varAssign ("y".data) 2] [] envEmpty).2.2 rfl⟩⟩

theorem wrap64_eq_self (n : Int) (h1 : i64Min ≤ n) (h2 : n ≤ i64Max) :
    wrap64 n = n := by
  unfold wrap64 i64Min i64Max at *
  have hmod : (n + 2 ^ 63) % 2 ^ 64 = n + 2 ^ 63 :=
    Int.emod_eq_of_lt (by omega) (by omega)
  omega

/-- C4 counterexample: with `x` bound to `i64::MAX` and `D = 1`, the
machine-width update leaves `x` bound to `i64::MIN` (the release-build
wrap of the overflowing `+=`; a debug build panics there), not to the
mathematical `V + D = i64::MAX + 1`, so the claim as stated fails. -/
theorem claim_C4_counterexample :
    (envInsert ("x".data) i64Max envEmpty) ("x".data) = some i64Max ∧
    evalUpdate64 ("x".data) 1 (envInsert ("x".data) i64Max envEmpty) ("x".data) =
      some i64Min ∧
    i64Min ≠ i64Max + 1 := by
  exact ⟨rfl, by decide, by decide⟩

/-- C4 (amended): evaluating `VarUpdate{var: x, value: D}` when `x` was
previously assigned `V` leaves `x` bound to the `i64` reduction of
`V + D`: this equals the mathematical `V + D` exactly when that sum stays
in the `i64` range, and in that case the update agrees with the evaluator
`evalSt` (on overflow a release build wraps, as modelled, and a debug
build panics — either way `x` does not map to `V + D`); when `x` was never
assigned the environment is unchanged (no error, no variable created). -/
theorem claim_C4 (x : List Char) (D : Int) (env : Env) :
    (∀ V, env x = some V →
      evalUpdate64 x D env = envInsert x (wrap64 (V + D)) env ∧
      evalUpdate64 x D env x = some (wrap64 (V + D)) ∧
      (i64Min ≤ V + D → V + D ≤ i64Max →
        wrap64 (V + D) = V + D ∧
        ∀ f, evalSt (f + 1) [Stmt.varUpdate x D] env =
          some (evalUpdate64 x D env, []))) ∧
    (env x = none →
      evalUpdate64 x D env = env ∧
      ∀ f, evalSt (f + 1) [Stmt.varUpdate x D] env = some (env, [])) := by
  refine ⟨fun V h => ⟨?_, ?_, fun h1 h2 => ⟨wrap64_eq_self _ h1 h2, fun f => ?_⟩⟩,
    fun h => ⟨?_, fun f => ?_⟩⟩
  · simp [evalUpdate64, h]
  · simp [evalUpdate64, h, envInsert]
  · simp [evalSt, evalUpdate64, h, wrap64_eq_self _ h1 h2]
  · simp [evalUpdate64, h]
  · simp [evalSt, h]

theorem claim_C4_witness :
    ((envInsert ("x".data) 3 envEmpty) ("x".data) = some 3 ∧
      i64Min ≤ (3 : Int) + 4 ∧ (3 : Int) + 4 ≤ i64Max ∧
      evalUpdate64 ("x".data) 4 (envInsert ("x".data) 3 envEmpty) =
        envInsert ("x".data) (wrap64 (3 + 4)) (envInsert ("x".data) 3 envEmpty) ∧
      evalUpdate64 ("x".data) 4 (envInsert ("x".data) 3 envEmpty) ("x".data) =
        some (wrap64 (3 + 4)) ∧
      wrap64 ((3 : Int) + 4) = 3 + 4 ∧
      evalSt 1 [Stmt.varUpdate ("x".data) 4] (envInsert ("x".data) 3 envEmpty) =
        some (evalUpdate64 ("x".data) 4 (envInsert ("x".data) 3 envEmpty), [])) ∧
    (envEmpty ("x".data) = none ∧
      evalUpdate64 ("x".data) 4 envEmpty = envEmpty ∧
      evalSt 1 [Stmt.varUpdate ("x".data) 4] envEmpty = some (envEmpty, [])) :=
  ⟨⟨rfl, by decide, by decide,
    ((claim_C4 ("x".data) 4 (envInsert ("x".data) 3 envEmpty)).1 3 rfl).1,
    ((claim_C4 ("x".data) 4 (envInsert ("x".data) 3 envEmpty)).1 3 rfl).2.1,
    (((claim_C4 ("x".data) 4 (envInsert ("x".data) 3 envEmpty)).1 3 rfl).2.2
      (by decide) (by decide)).1,
    (((claim_C4 ("x".data) 4 (envInsert ("x".data) 3 envEmpty)).1 3 rfl).2.2
      (by decide) (by decide)).2 0⟩,
   ⟨rfl, ((claim_C4 ("x".data) 4 envEmpty).2 rfl).1,
    ((claim_C4 ("x".data) 4 envEmpty).2 rfl).2 0⟩⟩

/-- C5: evaluating `FunctionCall{name: "print", args}` with nonempty
`args` emits one output line: each argument value in order, each followed
by a single space, terminated by one newline; the environment is
unchanged. -/
theorem claim_C5 (f : Nat) (args : List Int) (env : Env) (hne : args ≠ []) :
    evalSt (f + 1) [Stmt.functionCall printName args] env =
      some (env, args.flatMap (fun a => intChars a ++ [' ']) ++ ['\n']) := by
  simp [evalSt, printOut]

theorem claim_C5_witness :
    ([(1 : Int), 2, 3] ≠ []) ∧
    evalSt 1 [Stmt.functionCall printName [1, 2, 3]] envEmpty =
      some (envEmpty, ("1 2 3 \n".data)) :=
  ⟨by decide, claim_C5 0 [1, 2, 3] envEmpty (by decide)⟩

/-- C10: a single `VarAssign` or `VarUpdate` changes at most the binding
of its own variable: every other variable keeps exactly its previous
value, and no output is produced. -/
theorem claim_C10 (f : Nat) (x : List Char) (n d : Int) (env : Env) :
    (∃ env1, evalSt (f + 1) [Stmt.varAssign x n] env = some (env1, []) ∧
      ∀ y, y ≠ x → env1 y = env y) ∧
    (∃ env2, evalSt (f + 1) [Stmt.varUpdate x d] env = some (env2, []) ∧
      ∀ y, y ≠ x → env2 y = env y) := by
  constructor
  · exact ⟨envInsert x n env, by simp [evalSt],
      fun y hy => by simp [envInsert, hy]⟩
  · cases h : env x with
    | none => exact ⟨env, by simp [evalSt, h], fun y hy => rfl⟩
    | some w => exact ⟨envInsert x (w + d) env, by simp [evalSt, h],
        fun y hy => by simp [envInsert, hy]⟩

theorem envInsert_lookup (x : List Char) (n : Int) (env : Env) :
    envInsert x n env x = some n := by
  simp [envInsert]

theorem envInsert_insert (x : List Char) (n m : Int) (env : Env) :
    envInsert x n (envInsert x m env) = envInsert x n env := by
  funext y
  by_cases hy : y = x <;> simp [envInsert, hy]

theorem evalCond_lt (env : Env) (x : List Char) (N v : Int) (h : env x = some v) :
    evalCond env x opLt N = decide (v < N) := by
  have h1 : opLt ≠ opEq := by decide
  have h2 : opLt ≠ opNe := by decide
  simp [evalCond, h, h1, h2]

theorem runWhile_stop (v op : List Char) (n : Int) (body : List Stmt)
    (bf : Nat) (env : Env) (h : evalCond env v op n = false) (k : Nat) :
    runWhile v op n body bf k env = some (env, []) := by
  cases k <;> simp [runWhile, h]

theorem evalSt_nil (f : Nat) (env : Env) : evalSt f [] env = some (env, []) := by
  cases f <;> rfl

theorem evalSt_zero_cons (s : Stmt) (rest : List Stmt) (env : Env) :
    evalSt 0 (s :: rest) env = none := rfl

theorem evalSt_update_some (f : Nat) (x : List Char) (d : Int) (rest : List Stmt)
    (env : Env) (w : Int) (h : env x = some w) :
    evalSt (f + 1) (Stmt.varUpdate x d :: rest) env =
      evalSt f rest (envInsert x (w + d) env) := by
  simp only [evalSt, h]

theorem evalSt_while_true (f : Nat) (v op : List Char) (n : Int)
    (body rest : List Stmt) (env : Env) (hc : evalCond env v op n = true) :
    evalSt (f + 1) (Stmt.whileLoop v op n body :: rest) env =
      match evalSt f body env with
      | none => none
      | some (env1, o1) =>
        match evalSt f (Stmt.whileLoop v op n body :: rest) env1 with
        | none => none
        | some (env2, o2) => some (env2, o1 ++ o2) := by
  simp [evalSt, hc]

theorem evalSt_while_false (f : Nat) (v op : List Char) (n : Int)
    (body rest : List Stmt) (env : Env) (hc : evalCond env v op n = false) :
    evalSt (f + 1) (Stmt.whileLoop v op n body :: rest) env = evalSt f rest env := by
  simp [evalSt, hc]

theorem runWhile_succ_true (v op : List Char) (n : Int) (body : List Stmt)
    (bf k : Nat) (env : Env) (hc : evalCond env v op n = true) :
    runWhile v op n body bf (k + 1) env =
      match evalSt bf body env with
      | none => none
      | some (env1, o1) =>
        match runWhile v op n body bf k env1 with
        | none => none
        | some (env2, o2) => some (env2, o1 ++ o2) := by
  simp [runWhile, hc]

theorem runWhile_iters (x : List Char) (N : Int) :
    ∀ (k : Nat) (v : Int) (env : Env), env x = some v → v < N → (N - v).toNat = k →
      runWhile x opLt N [Stmt.varUpdate x 1] 2 k env =
        some (envInsert x N env, []) := by
  intro k
  induction k with
  | zero => intro v env h hv hk; exfalso; omega
  | succ k ih =>
    intro v env h hv hk
    have hc : evalCond env x opLt N = true := by
      rw [evalCond_lt env x N v h]; exact decide_eq_true hv
    have hb : evalSt 2 [Stmt.varUpdate x 1] env =
        some (envInsert x (v + 1) env, []) := by
      rw [evalSt_update_some 1 x 1 [] env v h, evalSt_nil]
    rw [runWhile_succ_true x opLt N [Stmt.varUpdate x 1] 2 k env hc, hb]
    by_cases hvN : v + 1 < N
    · have hrec := ih (v + 1) (envInsert x (v + 1) env)
        (envInsert_lookup x (v + 1) env) hvN (by omega)
      simp [hrec, envInsert_insert]
    · have hN : v + 1 = N := by omega
      rw [hN]
      have hc2 : evalCond (envInsert x N env) x opLt N = false := by
        rw [evalCond_lt _ x N N (envInsert_lookup x N env)]
        simp
      have hrec := runWhile_stop x opLt N [Stmt.varUpdate x 1] 2
        (envInsert x N env) hc2 k
      simp [hrec]

theorem runWhile_undershoot (x : List Char) (N : Int) :
    ∀ (k : Nat) (v : Int) (env : Env), env x = some v → (N - v).toNat = k + 1 →
      runWhile x opLt N [Stmt.varUpdate x 1] 2 k env = none := by
  intro k
  induction k with
  | zero =>
    intro v env h hk
    have hc : evalCond env x opLt N = true := by
      rw [evalCond_lt env x N v h]; exact decide_eq_true (by omega)
    simp [runWhile, hc]
  | succ k ih =>
    intro v env h hk
    have hc : evalCond env x opLt N = true := by
      rw [evalCond_lt env x N v h]; exact decide_eq_true (by omega)
    have hb : evalSt 2 [Stmt.varUpdate x 1] env =
        some (envInsert x (v + 1) env, []) := by
      rw [evalSt_update_some 1 x 1 [] env v h, evalSt_nil]
    have hrec := ih (v + 1) (envInsert x (v + 1) env)
      (envInsert_lookup x (v + 1) env) (by omega)
    rw [runWhile_succ_true x opLt N [Stmt.varUpdate x 1] 2 k env hc, hb]
    simp [hrec]

theorem evalSt_while_iters (x : List Char) (N : Int) :
    ∀ (k : Nat) (v : Int) (env : Env), env x = some v → v < N → (N - v).toNat = k →
      evalSt (k + 1) [Stmt.whileLoop x opLt N [Stmt.varUpdate x 1]] env =
        some (envInsert x N env, []) := by
  intro k
  induction k with
  | zero => intro v env h hv hk; exfalso; omega
  | succ k ih =>
    intro v env h hv hk
    have hc : evalCond env x opLt N = true := by
      rw [evalCond_lt env x N v h]; exact decide_eq_true hv
    have hb : evalSt (k + 1) [Stmt.varUpdate x 1] env =
        some (envInsert x (v + 1) env, []) := by
      rw [evalSt_update_some k x 1 [] env v h, evalSt_nil]
    rw [evalSt_while_true (k + 1) x opLt N [Stmt.varUpdate x 1] [] env hc, hb]
    by_cases hvN : v + 1 < N
    · have hrec := ih (v + 1) (envInsert x (v + 1) env)
        (envInsert_lookup x (v + 1) env) hvN (by omega)
      simp [hrec, envInsert_insert]
    · have hN : v + 1 = N := by omega
      rw [hN]
      have hc2 : evalCond (envInsert x N env) x opLt N = false := by
        rw [evalCond_lt _ x N N (envInsert_lookup x N env)]
        simp
      have hstop : evalSt (k + 1)
          [Stmt.whileLoop x opLt N [Stmt.varUpdate x 1]] (envInsert x N env) =
          some (envInsert x N env, []) := by
        rw [evalSt_while_false k x opLt N [Stmt.varUpdate x 1] [] _ hc2,
          evalSt_nil]
      simp [hstop]

theorem evalSt_while_undershoot (x : List Char) (N : Int) :
    ∀ (k : Nat) (v : Int) (env : Env), env x = some v → (N - v).toNat = k + 1 →
      evalSt (k + 1) [Stmt.whileLoop x opLt N [Stmt.varUpdate x 1]] env = none := by
  intro k
  induction k with
  | zero =>
    intro v env h hk
    have hc : evalCond env x opLt N = true := by
      rw [evalCond_lt env x N v h]; exact decide_eq_true (by omega)
    simp [evalSt, hc]
  | succ k ih =>
    intro v env h hk
    have hc : evalCond env x opLt N = true := by
      rw [evalCond_lt env x N v h]; exact decide_eq_true (by omega)
    have hb : evalSt (k + 1) [Stmt.varUpdate x 1] env =
        some (envInsert x (v + 1) env, []) := by
      rw [evalSt_update_some k x 1 [] env v h, evalSt_nil]
    have hrec := ih (v + 1) (envInsert x (v + 1) env)
      (envInsert_lookup x (v + 1) env) (by omega)
    rw [evalSt_while_true (k + 1) x opLt N [Stmt.varUpdate x 1] [] env hc, hb]
    simp [hrec]

/-- C2: evaluating `WhileLoop{var: x, op: <, value: N, body: [x = x + 1]}`
in an environment binding `x` to `v` performs exactly `N - v` iterations
when `v < N` (the loop succeeds when allowed `(N - v).toNat` iterations and
still fails when allowed one fewer; equivalently, the evaluator needs
exactly `(N - v).toNat + 1` fuel, one unit per loop entry), finishing with
`x` bound to `N`; when `v >= N` it performs zero iterations and leaves the
environment unchanged. -/
theorem claim_C2 (x : List Char) (N v : Int) (env : Env) (h : env x = some v) :
    (v < N →
      runWhile x opLt N [Stmt.varUpdate x 1] 2 ((N - v).toNat) env =
        some (envInsert x N env, []) ∧
      runWhile x opLt N [Stmt.varUpdate x 1] 2 ((N - v).toNat - 1) env = none ∧
      evalSt ((N - v).toNat + 1) [Stmt.whileLoop x opLt N [Stmt.varUpdate x 1]] env =
        some (envInsert x N env, []) ∧
      evalSt ((N - v).toNat) [Stmt.whileLoop x opLt N [Stmt.varUpdate x 1]] env =
        none) ∧
    (N ≤ v →
      runWhile x opLt N [Stmt.varUpdate x 1] 2 0 env = some (env, []) ∧
      ∀ f, evalSt (f + 1) [Stmt.whileLoop x opLt N [Stmt.varUpdate x 1]] env =
        some (env, [])) := by
  constructor
  · intro hv
    have hk1 : (N - v).toNat - 1 + 1 = (N - v).toNat := by omega
    refine ⟨runWhile_iters x N _ v env h hv rfl, ?_, evalSt_while_iters x N _ v env h hv rfl, ?_⟩
    · exact runWhile_undershoot x N _ v env h (by omega)
    · have := evalSt_while_undershoot x N ((N - v).toNat - 1) v env h (by omega)
      rwa [hk1] at this
  · intro hv
    have hc : evalCond env x opLt N = false := by
      rw [evalCond_lt env x N v h]; simp; omega
    exact ⟨runWhile_stop x opLt N [Stmt.varUpdate x 1] 2 env hc 0,
      fun f => by simp [evalSt, hc]⟩

theorem claim_C2_witness :
    (envInsert ("x".data) 1 envEmpty) ("x".data) = some 1 ∧ ((1 : Int) < 3) ∧
    (runWhile ("x".data) opLt 3 [Stmt.varUpdate ("x".data) 1] 2
        (((3 : Int) - 1).toNat) (envInsert ("x".data) 1 envEmpty) =
      some (envInsert ("x".data) 3 (envInsert ("x".data) 1 envEmpty), []) ∧
    runWhile ("x".data) opLt 3 [Stmt.varUpdate ("x".data) 1] 2
        (((3 : Int) - 1).toNat - 1) (envInsert ("x".data) 1 envEmpty) = none ∧
    evalSt (((3 : Int) - 1).toNat + 1)
        [Stmt.whileLoop ("x".data) opLt 3 [Stmt.varUpdate ("x".data) 1]]
        (envInsert ("x".data) 1 envEmpty) =
      some (envInsert ("x".data) 3 (envInsert ("x".data) 1 envEmpty), []) ∧
    evalSt (((3 : Int) - 1).toNat)
        [Stmt.whileLoop ("x".data) opLt 3 [Stmt.varUpdate ("x".data) 1]]
        (envInsert ("x".data) 1 envEmpty) = none) :=
  ⟨rfl, by decide,
    (claim_C2 ("x".data) 3 1 (envInsert ("x".data) 1 envEmpty) rfl).1 (by decide)⟩

theorem claim_C10_witness :
    (∃ env1, evalSt 1 [Stmt.varAssign ("x".data) 5]
        (envInsert ("y".data) 9 envEmpty) = some (env1, []) ∧
      ∀ y, y ≠ ("x".data) → env1 y = (envInsert ("y".data) 9 envEmpty) y) ∧
    (∃ env2, evalSt 1 [Stmt.varUpdate ("x".data) 7]
        (envInsert ("y".data) 9 envEmpty) = some (env2, []) ∧
      ∀ y, y ≠ ("x".data) → env2 y = (envInsert ("y".data) 9 envEmpty) y) :=
  claim_C10 0 ("x".data) 5 7 (envInsert ("y".data) 9 envEmpty)

/-- C6: the parser's treatment of an unrecognized line depends on its
position: at the top level a line matching none of the five statement
regexes is silently skipped (no statement emitted, no failure), whereas
inside an `if` true branch, an `else` branch, or a `while` body, a
non-delimiter line that is not an assignment, update or call — in
particular any nested `if`/`while` header — aborts the whole parse. -/
theorem claim_C6 :
    (∀ (l : List Char) (rest : List (List Char)),
      matchAssign (trim l) = none → matchUpdate (trim l) = none →
      matchIf (trim l) = none → matchWhile (trim l) = none →
      matchCall (trim l) = none →
      parseRun .top (l :: rest) = parseRun .top rest) ∧
    (∀ (l : List Char) (rest : List (List Char)) (v : List Char) (n : Int)
        (acc : List Stmt),
      matchElse (trim l) = false → matchEnd (trim l) = false →
      matchAssign (trim l) = none → matchUpdate (trim l) = none →
      matchCall (trim l) = none →
      parseRun (.inIf v n acc) (l :: rest) = none) ∧
    (∀ (l : List Char) (rest : List (List Char)) (v : List Char) (n : Int)
        (tb acc : List Stmt),
      matchEnd (trim l) = false →
      matchAssign (trim l) = none → matchUpdate (trim l) = none →
      matchCall (trim l) = none →
      parseRun (.inElse v n tb acc) (l :: rest) = none) ∧
    (∀ (l : List Char) (rest : List (List Char)) (v op : List Char) (n : Int)
        (acc : List Stmt),
      matchEnd (trim l) = false →
      matchAssign (trim l) = none → matchUpdate (trim l) = none →
      matchCall (trim l) = none →
      parseRun (.inWhile v op n acc) (l :: rest) = none) := by
  refine ⟨fun l rest h1 h2 h3 h4 h5 => ?_,
    fun l rest v n acc hE hEnd h1 h2 h5 => ?_,
    fun l rest v n tb acc hEnd h1 h2 h5 => ?_,
    fun l rest v op n acc hEnd h1 h2 h5 => ?_⟩
  · simp [parseRun, h1, h2, h3, h4, h5]
  · simp [parseRun, parse_statement, hE, hEnd, h1, h2, h5]
  · simp [parseRun, parse_statement, hEnd, h1, h2, h5]
  · simp [parseRun, parse_statement, hEnd, h1, h2, h5]

theorem claim_C6_witness :
    (matchAssign (trim ("foo bar".data)) = none ∧
     matchUpdate (trim ("foo bar".data)) = none ∧
     matchIf (trim ("foo bar".data)) = none ∧
     matchWhile (trim ("foo bar".data)) = none ∧
     matchCall (trim ("foo bar".data)) = none ∧
     parseRun .top [("foo bar".data), ("let x = 1;".data)] =
       parseRun .top [("let x = 1;".data)]) ∧
    (matchElse (trim ("while y < 2 \x7b".data)) = false ∧
     matchEnd (trim ("while y < 2 \x7b".data)) = false ∧
     matchAssign (trim ("while y < 2 \x7b".data)) = none ∧
     matchUpdate (trim ("while y < 2 \x7b".data)) = none ∧
     matchCall (trim ("while y < 2 \x7b".data)) = none ∧
     parseRun (.inIf ("x".data) 1 []) [("while y < 2 \x7b".data)] = none) :=
  ⟨⟨by decide, by decide, by decide, by decide, by decide,
    claim_C6.1 ("foo bar".data) [("let x = 1;".data)]
      (by decide) (by decide) (by decide) (by decide) (by decide)⟩,
   ⟨by decide, by decide, by decide, by decide, by decide,
    claim_C6.2.1 ("while y < 2 \x7b".data) [] ("x".data) 1 []
      (by decide) (by decide) (by decide) (by decide) (by decide)⟩⟩

/-- C8 counterexample: two lines with identical token sequences but
different interior whitespace (one versus two spaces before `=`) are not
recognized alike: the single-space line parses as a `VarAssign`, the
double-space line matches no regex and yields no statement at all. -/
theorem claim_C8_counterexample :
    parseTop [("let x = 10;".data)] = some [Stmt.varAssign ("x".data) 10] ∧
    parseTop [("let x  = 10;".data)] = some [] ∧
    parseTop [("let x  = 10;".data)] ≠ parseTop [("let x = 10;".data)] := by
  refine ⟨rfl, rfl, ?_⟩
  intro hcontra
  rw [show parseTop [("let x  = 10;".data)] = some [] from rfl,
    show parseTop [("let x = 10;".data)] =
      some [Stmt.varAssign ("x".data) 10] from rfl] at hcontra
  simp at hcontra

/-- C8 (amended): only the whitespace at the two ends of a source line is
trimmed before matching: two lines with equal trimmed content are treated
identically by the parser in every parse state, while whitespace between
tokens is significant (the counterexample shows a second interior space
defeats recognition). -/
theorem claim_C8 (mode : PMode) (l l2 : List Char) (rest : List (List Char))
    (h : trim l = trim l2) :
    parseRun mode (l :: rest) = parseRun mode (l2 :: rest) := by
  cases mode <;> simp only [parseRun, h]

theorem claim_C8_witness :
    trim ("  let x = 10;".data) = trim ("let x = 10;  ".data) ∧
    parseRun .top [("  let x = 10;".data)] =
      parseRun .top [("let x = 10;  ".data)] :=
  ⟨rfl, claim_C8 .top ("  let x = 10;".data) ("let x = 10;  ".data) [] rfl⟩

theorem parseRun_inIf_eof (v : List Char) (n : Int) :
    ∀ (rest : List (List Char)) (acc ss : List Stmt),
      (∀ l ∈ rest, matchElse (trim l) = false ∧ matchEnd (trim l) = false) →
      rest.mapM (fun l => parse_statement (trim l)) = some ss →
      parseRun (.inIf v n acc) rest =
        some [Stmt.ifCondition v n (acc.reverse ++ ss) []] := by
  intro rest
  induction rest with
  | nil =>
    intro acc ss _ hm
    rw [List.mapM_nil] at hm
    have hss : ss = [] := (Option.some.inj hm).symm
    subst hss
    simp [parseRun]
  | cons l rest ih =>
    intro acc ss hd hm
    obtain ⟨hE, hEnd⟩ := hd l (by simp)
    have hd' : ∀ l' ∈ rest, matchElse (trim l') = false ∧ matchEnd (trim l') = false :=
      fun l' hl' => hd l' (by simp [hl'])
    rw [List.mapM_cons] at hm
    cases hps : parse_statement (trim l) with
    | none => rw [hps] at hm; simp at hm
    | some s =>
      rw [hps] at hm
      cases hms : rest.mapM (fun l => parse_statement (trim l)) with
      | none => rw [hms] at hm; simp at hm
      | some ss' =>
        rw [hms] at hm
        simp at hm
        subst hm
        have hrec := ih (s :: acc) ss' hd' hms
        simp [parseRun, hE, hEnd, hps, hrec]

theorem parseRun_inWhile_eof (v op : List Char) (n : Int) :
    ∀ (rest : List (List Char)) (acc ss : List Stmt),
      (∀ l ∈ rest, matchEnd (trim l) = false) →
      rest.mapM (fun l => parse_statement (trim l)) = some ss →
      parseRun (.inWhile v op n acc) rest =
        some [Stmt.whileLoop v op n (acc.reverse ++ ss)] := by
  intro rest
  induction rest with
  | nil =>
    intro acc ss _ hm
    rw [List.mapM_nil] at hm
    have hss : ss = [] := (Option.some.inj hm).symm
    subst hss
    simp [parseRun]
  | cons l rest ih =>
    intro acc ss hd hm
    have hEnd := hd l (by simp)
    have hd' : ∀ l' ∈ rest, matchEnd (trim l') = false :=
      fun l' hl' => hd l' (by simp [hl'])
    rw [List.mapM_cons] at hm
    cases hps : parse_statement (trim l) with
    | none => rw [hps] at hm; simp at hm
    | some s =>
      rw [hps] at hm
      cases hms : rest.mapM (fun l => parse_statement (trim l)) with
      | none => rw [hms] at hm; simp at hm
      | some ss' =>
        rw [hms] at hm
        simp at hm
        subst hm
        have hrec := ih (s :: acc) ss' hd' hms
        simp [parseRun, hEnd, hps, hrec]

/-- C9: an `if` or `while` header never followed by a closing brace does
not make the parse fail by itself: the parser emits the `IfCondition`
(with empty false branch) or `WhileLoop` anyway, with every remaining
line of the input parsed as a nested statement into the open branch or
body. -/
theorem claim_C9 :
    (∀ (l0 : List Char) (rest : List (List Char)) (v : List Char) (n : Int)
        (ss : List Stmt),
      matchAssign (trim l0) = none → matchUpdate (trim l0) = none →
      matchIf (trim l0) = some (v, n) →
      (∀ l ∈ rest, matchElse (trim l) = false ∧ matchEnd (trim l) = false) →
      rest.mapM (fun l => parse_statement (trim l)) = some ss →
      parseTop (l0 :: rest) = some [Stmt.ifCondition v n ss []]) ∧
    (∀ (l0 : List Char) (rest : List (List Char)) (v op : List Char) (n : Int)
        (ss : List Stmt),
      matchAssign (trim l0) = none → matchUpdate (trim l0) = none →
      matchIf (trim l0) = none → matchWhile (trim l0) = some (v, op, n) →
      (∀ l ∈ rest, matchEnd (trim l) = false) →
      rest.mapM (fun l => parse_statement (trim l)) = some ss →
      parseTop (l0 :: rest) = some [Stmt.whileLoop v op n ss]) := by
  constructor
  · intro l0 rest v n ss hA hU hI hd hm
    have hrec := parseRun_inIf_eof v n rest [] ss hd hm
    simp [parseTop, parseRun, hA, hU, hI, hrec]
  · intro l0 rest v op n ss hA hU hI hW hd hm
    have hrec := parseRun_inWhile_eof v op n rest [] ss hd hm
    simp [parseTop, parseRun, hA, hU, hI, hW, hrec]

theorem claim_C9_witness :
    (matchAssign (trim ("if x == 1 \x7b".data)) = none ∧
     matchUpdate (trim ("if x == 1 \x7b".data)) = none ∧
     matchIf (trim ("if x == 1 \x7b".data)) = some (("x".data), 1) ∧
     (∀ l ∈ [("x = x + 2;".data)],
       matchElse (trim l) = false ∧ matchEnd (trim l) = false) ∧
     [("x = x + 2;".data)].mapM (fun l => parse_statement (trim l)) =
       some [Stmt.varUpdate ("x".data) 2] ∧
     parseTop [("if x == 1 \x7b".data), ("x = x + 2;".data)] =
       some [Stmt.ifCondition ("x".data) 1 [Stmt.varUpdate ("x".data) 2] []]) ∧
    (matchWhile (trim ("while x < 9 \x7b".data)) = some (("x".data), opLt, 9) ∧
     parseTop [("while x < 9 \x7b".data), ("x = x + 2;".data)] =
       some [Stmt.whileLoop ("x".data) opLt 9 [Stmt.varUpdate ("x".data) 2]]) :=
  ⟨⟨by decide, by decide, by decide, by decide, rfl,
    claim_C9.1 ("if x == 1 \x7b".data) [("x = x + 2;".data)] ("x".data) 1
      [Stmt.varUpdate ("x".data) 2] (by decide) (by decide) (by decide)
      (by decide) rfl⟩,
   ⟨by decide,
    claim_C9.2 ("while x < 9 \x7b".data) [("x = x + 2;".data)] ("x".data) opLt 9
      [Stmt.varUpdate ("x".data) 2] (by decide) (by decide) (by decide)
      (by decide) (by decide) rfl⟩⟩

theorem word_not_ws (c : Char) (h : isWordChar c = true) :
    c.isWhitespace = false := by
  cases hv : c.isWhitespace
  · rfl
  · exfalso
    have hd : ((c = ' ' ∨ c = '\t') ∨ c = '\r') ∨ c = '\n' := by
      simpa [Char.isWhitespace] using hv
    rcases hd with ((rfl | rfl) | rfl) | rfl <;> exact absurd h (by decide)

theorem word_ne_space (c : Char) (h : isWordChar c = true) :
    (' ' == c) = false := by
  cases hbe : (' ' == c)
  · rfl
  · exfalso
    have hc : ' ' = c := eq_of_beq hbe
    rw [← hc] at h
    exact absurd h (by decide)

theorem word_ne_paren (c : Char) (h : isWordChar c = true) :
    (c == '(') = false := by
  cases hbe : (c == '(')
  · rfl
  · exfalso
    have hc : c = '(' := eq_of_beq hbe
    rw [hc] at h
    exact absurd h (by decide)

theorem expectLit_word_sp :
    ∀ (xs w rr : List Char), xs.all isWordChar = true → w.all isWordChar = true →
      expectLit (xs ++ [' ']) (w ++ '(' :: rr) = none := by
  intro xs
  induction xs with
  | nil =>
    intro w rr _ hw
    cases w with
    | nil =>
      have hp : (' ' == '(') = false := by decide
      simp [expectLit, hp]
    | cons c w' =>
      have hc : isWordChar c = true := by
        simp [List.all_cons] at hw; exact hw.1
      simp [expectLit, word_ne_space c hc]
  | cons a xs ih =>
    intro w rr hxs hw
    rw [List.all_cons, Bool.and_eq_true] at hxs
    have ha : isWordChar a = true := hxs.1
    have hxs' : xs.all isWordChar = true := hxs.2
    cases w with
    | nil =>
      simp [expectLit, word_ne_paren a ha]
    | cons c w' =>
      rw [List.all_cons, Bool.and_eq_true] at hw
      have hw' : w'.all isWordChar = true := hw.2
      cases hbe : (a == c)
      · simp [expectLit, hbe]
      · simp [expectLit, hbe, ih w' rr hxs' hw']

theorem spanP_word :
    ∀ (w rr : List Char), w.all isWordChar = true →
      spanP isWordChar (w ++ '(' :: rr) = (w, '(' :: rr) := by
  intro w
  induction w with
  | nil =>
    intro rr _
    have hp : isWordChar '(' = false := by decide
    simp [spanP, hp]
  | cons c w' ih =>
    intro rr hw
    rw [List.all_cons, Bool.and_eq_true] at hw
    simp [spanP, hw.1, ih rr hw.2]

theorem matchWord_call_line (w rr : List Char) (hne : w ≠ [])
    (hw : w.all isWordChar = true) :
    matchWord (w ++ '(' :: rr) = some (w, '(' :: rr) := by
  cases w with
  | nil => exact absurd rfl hne
  | cons c w' =>
    have hs := spanP_word (c :: w') rr hw
    unfold matchWord
    rw [hs]
    rfl

theorem trim_call_line (w : List Char) (hne : w ≠ [])
    (hw : w.all isWordChar = true) :
    trim (w ++ ("();".data)) = w ++ ("();".data) := by
  cases w with
  | nil => exact absurd rfl hne
  | cons c w' =>
    have hc : isWordChar c = true := by
      simp [List.all_cons] at hw; exact hw.1
    have hcws := word_not_ws c hc
    have hsemi : (';' : Char).isWhitespace = false := by decide
    rw [show ("();".data) = ['(', ')', ';'] from rfl]
    unfold trim
    rw [List.cons_append, List.dropWhile_cons, hcws]
    simp only [Bool.false_eq_true, if_false]
    rw [show (c :: (w' ++ ['(', ')', ';'])).reverse =
      ';' :: (')' :: '(' :: w'.reverse ++ [c]) by simp]
    rw [List.dropWhile_cons, hsemi]
    simp

theorem matchAssign_call_line (w : List Char) (hw : w.all isWordChar = true) :
    matchAssign (w ++ ("();".data)) = none := by
  have h := expectLit_word_sp ['l', 'e', 't'] w [')', ';'] (by decide) hw
  have h' : expectLit litLet (w ++ ("();".data)) = none := by
    rw [show litLet = ['l', 'e', 't'] ++ [' '] from rfl,
      show ("();".data) = '(' :: [')', ';'] from rfl]
    exact h
  unfold matchAssign
  rw [h']
  rfl

theorem matchIf_call_line (w : List Char) (hw : w.all isWordChar = true) :
    matchIf (w ++ ("();".data)) = none := by
  have h := expectLit_word_sp ['i', 'f'] w [')', ';'] (by decide) hw
  have h' : expectLit litIf (w ++ ("();".data)) = none := by
    rw [show litIf = ['i', 'f'] ++ [' '] from rfl,
      show ("();".data) = '(' :: [')', ';'] from rfl]
    exact h
  unfold matchIf
  rw [h']
  rfl

theorem matchWhile_call_line (w : List Char) (hw : w.all isWordChar = true) :
    matchWhile (w ++ ("();".data)) = none := by
  have h := expectLit_word_sp ['w', 'h', 'i', 'l', 'e'] w [')', ';'] (by decide) hw
  have h' : expectLit litWhile (w ++ ("();".data)) = none := by
    rw [show litWhile = ['w', 'h', 'i', 'l', 'e'] ++ [' '] from rfl,
      show ("();".data) = '(' :: [')', ';'] from rfl]
    exact h
  unfold matchWhile
  rw [h']
  rfl

theorem matchUpdate_call_line (w : List Char) (hne : w ≠ [])
    (hw : w.all isWordChar = true) :
    matchUpdate (w ++ ("();".data)) = none := by
  have hmw := matchWord_call_line w [')', ';'] hne hw
  rw [show ("();".data) = '(' :: [')', ';'] from rfl]
  unfold matchUpdate
  rw [hmw]
  rfl

theorem matchCall_call_line (w : List Char) (hne : w ≠ [])
    (hw : w.all isWordChar = true) :
    matchCall (w ++ ("();".data)) = some (w, []) := by
  have hmw := matchWord_call_line w [')', ';'] hne hw
  rw [show ("();".data) = '(' :: [')', ';'] from rfl]
  unfold matchCall
  rw [hmw]
  rfl

theorem parse_statement_call_line (w : List Char) (hne : w ≠ [])
    (hw : w.all isWordChar = true) :
    parse_statement (w ++ ("();".data)) = none := by
  have hargs : parseArgs [] = none := rfl
  simp [parse_statement, matchAssign_call_line w hw,
    matchUpdate_call_line w hne hw, matchCall_call_line w hne hw, hargs]

/-- C7: for every identifier `name` (a nonempty run of word characters),
the zero-argument call line `name();` is a fatal parse failure both as a
nested statement and at the top level: the call regex matches with empty
argument text, splitting that text on commas yields one empty token, and
its integer parse fails (`unwrap` panics); the line is neither a
`FunctionCall` with an empty argument list nor silently skipped. -/
theorem claim_C7 (w : List Char) (rest : List (List Char)) (hne : w ≠ [])
    (hw : w.all isWordChar = true) :
    parse_statement (w ++ ("();".data)) = none ∧
    parseRun .top ((w ++ ("();".data)) :: rest) = none := by
  have hargs : parseArgs [] = none := rfl
  refine ⟨parse_statement_call_line w hne hw, ?_⟩
  simp [parseRun, trim_call_line w hne hw, matchAssign_call_line w hw,
    matchUpdate_call_line w hne hw, matchIf_call_line w hw,
    matchWhile_call_line w hw, matchCall_call_line w hne hw, hargs]

theorem claim_C7_witness :
    (("foo".data) ≠ []) ∧ (("foo".data).all isWordChar = true) ∧
    (parse_statement (("foo".data) ++ ("();".data)) = none ∧
     parseRun .top ((("foo".data) ++ ("();".data)) :: [("let x = 1;".data)]) =
       none) :=
  ⟨by decide, by decide,
    claim_C7 ("foo".data) [("let x = 1;".data)] (by decide) (by decide)⟩

end SCInterp